import Mathlib

/-!
Verification of the tree data structure in `src/constructs/trees.py`
(`AbstractNode` / `AbstractTree`).

Two complementary shallow embeddings are used:

* a downward inductive view `PNode` (optional content plus ordered list of
  children) for the structurally recursive algorithms `get_size`,
  `get_height` and `get_descendants`, which only ever follow `children`
  links — the claims about them presuppose a finite acyclic structure,
  which is exactly what the inductive type provides;

* an explicit heap model `PyState` (a store of list objects and a store of
  node objects addressed by numeric references) for everything where
  Python's reference semantics matters: parent back-references, mutation
  of the shared `children` list object (`add_child` / `remove_child`),
  the mutable-default-argument aliasing in `__init__`, identity-based
  equality (`get_siblings`, `list.remove`), and the upward recursion
  `get_depth` / `get_ancestors`, which can diverge on a parent cycle and
  is therefore modelled with explicit fuel.
-/

/-- A node viewed downward: `content` and the ordered `children` list of
`AbstractNode` (trees.py lines 16-26).  The `parent` back-reference is
modelled separately in the heap model below. -/
inductive PNode where
  | mk : Option Nat → List PNode → PNode

/-- The `content` attribute of a node. -/
def PNode.content : PNode → Option Nat
  | .mk c _ => c

/-- The `children` attribute of a node. -/
def PNode.children : PNode → List PNode
  | .mk _ cs => cs

/-- `is_leaf` (trees.py line 92): `len(self.children) == 0`. -/
def is_leaf (n : PNode) : Bool := n.children.length = 0

mutual
/-- `get_size` (trees.py line 120):
`sum([child.get_size() for child in self.children]) + 1`.
The sum over the comprehension is expressed by the structural helper
`size_list` (see `size_list_eq_map_sum`). -/
def get_size : PNode → Nat
  | .mk _ cs => size_list cs + 1
/-- Sum of `get_size` over a list of children. -/
def size_list : List PNode → Nat
  | [] => 0
  | c :: cs => get_size c + size_list cs
end

theorem size_list_eq_map_sum (cs : List PNode) :
    size_list cs = (cs.map get_size).sum := by
  induction cs with
  | nil => rfl
  | cons c cs ih => simp [size_list, ih]

mutual
/-- `get_height` (trees.py lines 108-114): `0` if `is_leaf()`, otherwise
`max([child.get_height() for child in self.children]) + 1`.  The Python
`max` over the (non-empty) comprehension is expressed by the structural
helper `max_heights` (see `max_heights_eq`). -/
def get_height : PNode → Nat
  | .mk _ cs => if cs.length = 0 then 0 else max_heights cs + 1
/-- Maximum of `get_height` over a list of children (0 on the empty list,
which the guarded call site never passes). -/
def max_heights : List PNode → Nat
  | [] => 0
  | c :: cs => max (get_height c) (max_heights cs)
end

theorem max_heights_eq (cs : List PNode) :
    max_heights cs = (cs.map get_height).foldr max 0 := by
  induction cs with
  | nil => rfl
  | cons c cs ih => simp [max_heights, ih]

/-- An element of the list returned by the original `get_descendants`:
Python's heterogeneous result mixes nodes with nested lists. -/
inductive DItem where
  | node : PNode → DItem
  | list : List DItem → DItem

mutual
/-- `get_descendants` (trees.py lines 130-136), exactly as written in the
source: `[]` if `is_leaf()`, otherwise
`self.children + [child.get_descendants() for child in self.children]` —
the direct children followed by one *nested list* per child. -/
def get_descendants : PNode → List DItem
  | .mk _ cs =>
    if cs.length = 0 then [] else cs.map DItem.node ++ desc_lists cs
/-- The comprehension `[child.get_descendants() for child in self.children]`:
one `DItem.list` per child. -/
def desc_lists : List PNode → List DItem
  | [] => []
  | c :: cs => DItem.list (get_descendants c) :: desc_lists cs
end

mutual
/-- Modelled from the spec: the corrected, flat pre-order descendant
contract of section 4.1 ("a flat sequence of *all* descendants in
pre-order (direct children first, then their descendants, etc.)"); the
source's `get_descendants` returns a nested structure instead, which the
spec flags as a design flaw. -/
def all_descendants : PNode → List PNode
  | .mk _ cs => all_desc_list cs
/-- Pre-order flattening of a list of subtrees: each child followed by
that child's descendants, children left to right. -/
def all_desc_list : List PNode → List PNode
  | [] => []
  | c :: cs => c :: all_descendants c ++ all_desc_list cs
end

mutual
theorem get_size_eq_desc (n : PNode) :
    get_size n = (all_descendants n).length + 1 :=
  match n with
  | .mk c cs => by simp [get_size, all_descendants, size_list_eq_desc cs]
theorem size_list_eq_desc (cs : List PNode) :
    size_list cs = (all_desc_list cs).length :=
  match cs with
  | [] => rfl
  | c :: cs => by
    have h1 := get_size_eq_desc c
    have h2 := size_list_eq_desc cs
    simp [size_list, all_desc_list]
    omega
end

theorem max_heights_mem (cs : List PNode) (h : cs ≠ []) :
    ∃ c ∈ cs, max_heights cs = get_height c := by
  induction cs with
  | nil => exact absurd rfl h
  | cons a cs ih =>
    cases cs with
    | nil => exact ⟨a, by simp, by simp [max_heights]⟩
    | cons b cs =>
      have hstep : max_heights (a :: b :: cs) =
          max (get_height a) (max_heights (b :: cs)) := rfl
      rcases max_choice (get_height a) (max_heights (b :: cs)) with hm | hm
      · exact ⟨a, by simp, by rw [hstep, hm]⟩
      · obtain ⟨c, hc, hec⟩ := ih (by simp)
        exact ⟨c, List.mem_cons_of_mem a hc, by rw [hstep, hm, hec]⟩

theorem le_max_heights (cs : List PNode) (c : PNode) (hc : c ∈ cs) :
    get_height c ≤ max_heights cs := by
  induction cs with
  | nil => simp at hc
  | cons a cs ih =>
    rcases List.mem_cons.mp hc with h | h
    · subst h; exact le_max_left _ _
    · exact le_trans (ih h) (le_max_right _ _)

/-- A reference into the Python heap (an object identity). -/
abbrev Ref := Nat

/-- Python exception outcomes relevant to this code: `list.remove` raises
`ValueError` when the element is absent; attribute access on `None` (or a
dangling reference) raises `AttributeError`. -/
inductive PyErr where
  | valueError
  | attributeError
deriving DecidableEq

/-- A node object on the heap (`AbstractNode.__init__`, trees.py lines
16-26): `parent` is an optional reference to another node, `content` an
optional payload, and `children` is a *reference to a list object* —
assigning it never copies the list. -/
structure ObjNode where
  parent : Option Ref
  content : Option Nat
  childrenRef : Ref
deriving DecidableEq

/-- The heap: a store of list objects and a store of node objects, each
addressed by position. -/
structure PyState where
  lists : List (List Ref)
  nodes : List ObjNode
deriving DecidableEq

/-- Reading `self.children` of node `n` and dereferencing the list object
(`get_children`, trees.py line 61). -/
def childrenOf (st : PyState) (n : Ref) : Option (List Ref) :=
  (st.nodes[n]?).bind fun nd => st.lists[nd.childrenRef]?

/-- `has_children` (trees.py line 74): `len(self.children) > 0`. -/
def has_children (st : PyState) (n : Ref) : Option Bool :=
  (childrenOf st n).map fun cs => decide (cs.length > 0)

/-- `add_child` (trees.py line 80): `self.children.append(child)` —
mutates the list object `self.children` refers to, in place. -/
def add_child (st : PyState) (n c : Ref) : Option PyState :=
  (st.nodes[n]?).bind fun nd =>
    (st.lists[nd.childrenRef]?).map fun cs =>
      { st with lists := st.lists.set nd.childrenRef (cs ++ [c]) }

/-- Python's `list.remove(x)`: removes the first element equal to `x`
(object identity here, since `AbstractNode` defines no `__eq__`), and
raises `ValueError` when no element matches. -/
def list_remove (x : Ref) : List Ref → Except PyErr (List Ref)
  | [] => .error .valueError
  | a :: l => if a = x then .ok l else (list_remove x l).map (a :: ·)

/-- Reading `self.children` of node `n`: the reference to its list object
together with that object's current contents. -/
def childrenWithRef (st : PyState) (n : Ref) : Option (Ref × List Ref) :=
  (st.nodes[n]?).bind fun nd =>
    (st.lists[nd.childrenRef]?).map fun cs => (nd.childrenRef, cs)

/-- `remove_child` (trees.py line 86): `self.children.remove(child)` —
mutates the list object in place, propagating `ValueError` when the child
is absent. -/
def remove_child (st : PyState) (n c : Ref) : Except PyErr PyState :=
  match childrenWithRef st n with
  | none => .error .attributeError
  | some rcs =>
    (list_remove c rcs.2).map fun cs2 =>
      { st with lists := st.lists.set rcs.1 cs2 }

/-- `get_siblings` (trees.py lines 138-144): `[]` for a root, otherwise
`[child for child in self.parent.get_children() if child != self]` —
every child of the parent not identical to `self`. -/
def get_siblings (st : PyState) (n : Ref) : Option (List Ref) :=
  (st.nodes[n]?).bind fun nd =>
    match nd.parent with
    | none => some []
    | some p => (childrenOf st p).map fun pcs => pcs.filter (fun c => c ≠ n)

/-- `get_depth` (trees.py lines 100-106): `0` for a root, otherwise
`self.parent.get_depth() + 1`.  The upward recursion is not structurally
bounded in the heap (a parent cycle makes it diverge), so it is modelled
with explicit fuel: `none` means the computation did not finish within
the given fuel (or hit a dangling reference). -/
def getDepthF : Nat → PyState → Ref → Option Nat
  | 0, _, _ => none
  | fuel + 1, st, n =>
    (st.nodes[n]?).bind fun nd =>
      match nd.parent with
      | none => some 0
      | some p => (getDepthF fuel st p).map (· + 1)

/-- `get_ancestors` (trees.py lines 122-128): `[]` for a root, otherwise
`[self.parent] + self.parent.get_ancestors()` — nearest parent first. -/
def getAncestorsF : Nat → PyState → Ref → Option (List Ref)
  | 0, _, _ => none
  | fuel + 1, st, n =>
    (st.nodes[n]?).bind fun nd =>
      match nd.parent with
      | none => some []
      | some p => (getAncestorsF fuel st p).map fun rest => p :: rest

/-- `get_size` on the heap (trees.py line 120), with fuel for the
unbounded downward recursion through references. -/
def getSizeF : Nat → PyState → Ref → Option Nat
  | 0, _, _ => none
  | fuel + 1, st, n =>
    (childrenOf st n).bind fun cs =>
      (cs.mapM (fun c => getSizeF fuel st c)).map fun sizes => sizes.sum + 1

/-- `get_height` on the heap (trees.py lines 108-114), with fuel. -/
def getHeightF : Nat → PyState → Ref → Option Nat
  | 0, _, _ => none
  | fuel + 1, st, n =>
    (childrenOf st n).bind fun cs =>
      if cs.length = 0 then some 0
      else (cs.mapM (fun c => getHeightF fuel st c)).map fun hs =>
        hs.foldr max 0 + 1

/-- `get_leaves` (trees.py lines 146-152): `[self]` for a leaf, otherwise
the left-to-right concatenation of the children's leaves. -/
def getLeavesF : Nat → PyState → Ref → Option (List Ref)
  | 0, _, _ => none
  | fuel + 1, st, n =>
    (childrenOf st n).bind fun cs =>
      if cs.length = 0 then some [n]
      else (cs.mapM (fun c => getLeavesF fuel st c)).map List.flatten

/-- `AbstractTree` (trees.py lines 157-213): a handle around an optional
root reference. -/
structure PyTree where
  root : Option Ref

/-- `AbstractTree.is_empty` (trees.py line 184): the root is `None`. -/
def tree_is_empty (t : PyTree) : Bool := t.root.isNone

/-- `AbstractTree.get_leaves` (trees.py line 191): `self.root.get_leaves()`
— fails (`AttributeError` on `None`, here `none`) when the tree is empty. -/
def treeGetLeavesF (fuel : Nat) (st : PyState) (t : PyTree) :
    Option (List Ref) :=
  t.root.bind fun r => getLeavesF fuel st r

/-- `AbstractTree.get_size` (trees.py line 197): delegates to the root. -/
def treeGetSizeF (fuel : Nat) (st : PyState) (t : PyTree) : Option Nat :=
  t.root.bind fun r => getSizeF fuel st r

/-- `AbstractTree.get_height` (trees.py line 203): delegates to the root. -/
def treeGetHeightF (fuel : Nat) (st : PyState) (t : PyTree) : Option Nat :=
  t.root.bind fun r => getHeightF fuel st r

/-- `AbstractTree.get_depth` (trees.py line 209): delegates to the root. -/
def treeGetDepthF (fuel : Nat) (st : PyState) (t : PyTree) : Option Nat :=
  t.root.bind fun r => getDepthF fuel st r

/-- The parent chain from a node reaches a root through valid references:
the precondition under which `get_depth` / `get_ancestors` terminate. -/
inductive RootedChain (st : PyState) : Ref → Prop where
  | root (n : Ref) (nd : ObjNode) :
      st.nodes[n]? = some nd → nd.parent = none → RootedChain st n
  | step (n : Ref) (nd : ObjNode) (p : Ref) :
      st.nodes[n]? = some nd → nd.parent = some p →
      RootedChain st p → RootedChain st n

/-- The tree `A(B(D, E), C)` of the round-trip scenario, with consistent
parent links: node ids A=0, B=1, C=2, D=3, E=4; node `i` owns list `i`. -/
def exState : PyState :=
  { lists := [[1, 2], [3, 4], [], [], []]
  , nodes :=
      [ { parent := none, content := some 0, childrenRef := 0 }
      , { parent := some 0, content := some 1, childrenRef := 1 }
      , { parent := some 0, content := some 2, childrenRef := 2 }
      , { parent := some 1, content := some 3, childrenRef := 3 }
      , { parent := some 1, content := some 4, childrenRef := 4 } ] }

/-- Two nodes that are each other's parent: a parent cycle. -/
def cycState : PyState :=
  { lists := [[], []]
  , nodes :=
      [ { parent := some 1, content := none, childrenRef := 0 }
      , { parent := some 0, content := none, childrenRef := 1 } ] }

/-- A parent (node 0) whose children list contains node 1 twice —
duplicates are explicitly permitted by the structure. -/
def dupState : PyState :=
  { lists := [[1, 1], []]
  , nodes :=
      [ { parent := none, content := none, childrenRef := 0 }
      , { parent := some 0, content := none, childrenRef := 1 } ] }

/-- Node 0 with children `[1, 2]` (nodes 1 and 2 own their empty lists). -/
def abState : PyState :=
  { lists := [[1, 2], [], []]
  , nodes :=
      [ { parent := none, content := none, childrenRef := 0 }
      , { parent := none, content := none, childrenRef := 1 }
      , { parent := none, content := none, childrenRef := 2 } ] }

/-- The heap after two nodes (ids 0 and 1) are constructed without an
explicit `children` argument, plus a third node (id 2) with its own list.
In Python the default value `children=[]` in `__init__` is evaluated once,
at function definition time, so every construction that omits `children`
binds `self.children` to that same single list object — modelled here as
list 0, the `childrenRef` of both node 0 and node 1. -/
def sharedDefaultState : PyState :=
  { lists := [[], []]
  , nodes :=
      [ { parent := none, content := none, childrenRef := 0 }
      , { parent := none, content := none, childrenRef := 0 }
      , { parent := none, content := none, childrenRef := 1 } ] }

def exD : PNode := .mk (some 3) []
def exE : PNode := .mk (some 4) []
def exC : PNode := .mk (some 2) []
def exB : PNode := .mk (some 1) [exD]
def exA : PNode := .mk (some 0) [exB, exC]

theorem set_getElem_self {α : Type} (l : List α) :
    ∀ i a, l[i]? = some a → l.set i a = l := by
  induction l with
  | nil => intro i a h; simp at h
  | cons x xs ih =>
    intro i a h
    cases i with
    | zero => simp at h; simp [h]
    | succ j => simp at h ⊢; exact ih j a h

theorem list_remove_not_mem (x : Ref) (l : List Ref) (h : x ∉ l) :
    list_remove x l = .error .valueError := by
  induction l with
  | nil => rfl
  | cons a l ih =>
    have hax : ¬ a = x := fun hax => h (hax ▸ List.mem_cons_self a l)
    simp [list_remove, hax, ih (fun hm => h (List.mem_cons_of_mem a hm)),
      Except.map]

theorem list_remove_first (x : Ref) (l₂ : List Ref) :
    ∀ l₁ : List Ref, x ∉ l₁ → list_remove x (l₁ ++ x :: l₂) = .ok (l₁ ++ l₂) := by
  intro l₁
  induction l₁ with
  | nil => intro _; simp [list_remove]
  | cons a l₁ ih =>
    intro h
    have hax : ¬ a = x := fun hax => h (hax ▸ List.mem_cons_self a l₁)
    simp [list_remove, hax, ih (fun hm => h (List.mem_cons_of_mem a hm)),
      Except.map]

theorem length_filter_ne (x : Ref) (l : List Ref) :
    (l.filter (fun c => c ≠ x)).length = l.length - l.count x := by
  induction l with
  | nil => rfl
  | cons a l ih =>
    have hcle := List.count_le_length x l
    simp only [ne_eq, decide_not] at ih ⊢
    by_cases hax : a = x
    · subst hax
      simp [List.filter_cons, List.count_cons, ih]
    · simp [List.filter_cons, List.count_cons, hax, ih]
      omega

theorem cyc_depth_none (f : Nat) :
    getDepthF f cycState 0 = none ∧ getDepthF f cycState 1 = none := by
  induction f with
  | zero => exact ⟨rfl, rfl⟩
  | succ f ih =>
    refine ⟨?_, ?_⟩
    · show (getDepthF f cycState 1).map (· + 1) = none
      rw [ih.2]; rfl
    · show (getDepthF f cycState 0).map (· + 1) = none
      rw [ih.1]; rfl

/-- C1: the claim says `get_descendants` returns a flat pre-order sequence
of all descendants, with `A.get_descendants() = [B, D, C]` on the tree
`A(B(D), C)`.  The source (trees.py lines 130-136) instead returns the
nested list `[B, C, [D, []], []]` — the direct children followed by one
nested sub-list per child — contradicting its own flat reading
("returns the descendants") and the corrected contract; the flat
pre-order `all_descendants` does yield `[B, D, C]`. -/
theorem c1_descendants_nested_not_flat :
    get_descendants exA =
      [DItem.node exB, DItem.node exC,
       DItem.list [DItem.node exD, DItem.list []], DItem.list []] ∧
    get_descendants exA ≠ [DItem.node exB, DItem.node exD, DItem.node exC] ∧
    all_descendants exA = [exB, exD, exC] := by
  refine ⟨rfl, ?_, rfl⟩
  simp [exA, exB, exC, exD, get_descendants, desc_lists]

/-- C3: a tree constructed with no root reports `is_empty() == True`, and
each facade query (`get_leaves`, `get_size`, `get_height`, `get_depth`)
dereferences the absent root and fails (returns no value), whatever the
heap and fuel. -/
theorem c3_empty_tree_facade_fails (st : PyState) (fuel : Nat) :
    tree_is_empty { root := none } = true ∧
    treeGetLeavesF fuel st { root := none } = none ∧
    treeGetSizeF fuel st { root := none } = none ∧
    treeGetHeightF fuel st { root := none } = none ∧
    treeGetDepthF fuel st { root := none } = none :=
  ⟨rfl, rfl, rfl, rfl, rfl⟩

/-- C4: two distinct nodes (heap ids 0 and 1), each constructed without an
explicit `children` argument, share the single default list object
(list 0), because Python evaluates the `children=[]` default once at
function definition time; after `add_child` of node 2 onto node 0, node 1
also reports `has_children() == True` and node 2 appears among node 1's
children — default-constructed nodes do not start with independent empty
child lists. -/
theorem c4_default_children_shared :
    (0 : Ref) ≠ (1 : Ref) ∧
    childrenOf sharedDefaultState 0 = some [] ∧
    childrenOf sharedDefaultState 1 = some [] ∧
    add_child sharedDefaultState 0 2 =
      some { sharedDefaultState with lists := [[2], []] } ∧
    has_children { sharedDefaultState with lists := [[2], []] } 1 =
      some true ∧
    childrenOf { sharedDefaultState with lists := [[2], []] } 1 =
      some [2] :=
  ⟨by decide, rfl, rfl, rfl, rfl, rfl⟩

/-- C10: the round-trip on `A(B(D, E), C)` (heap `exState`, node ids A=0,
B=1, C=2, D=3, E=4, with consistent parent links): `A.get_size() == 5`,
`A.get_height() == 2`, `A.get_leaves() == [D, E, C]` in that order,
`D.get_depth() == 2`, and `D.get_ancestors() == [B, A]` — nearest parent
first, self excluded. -/
theorem c10_roundtrip :
    childrenOf exState 0 = some [1, 2] ∧
    childrenOf exState 1 = some [3, 4] ∧
    getSizeF 10 exState 0 = some 5 ∧
    getHeightF 10 exState 0 = some 2 ∧
    getLeavesF 10 exState 0 = some [3, 4, 2] ∧
    getDepthF 10 exState 3 = some 2 ∧
    getAncestorsF 10 exState 3 = some [1, 0] :=
  ⟨rfl, rfl, rfl, rfl, rfl, rfl, rfl⟩

theorem remove_child_eq (st : PyState) (n c : Ref) (nd : ObjNode)
    (cs : List Ref) (hn : st.nodes[n]? = some nd)
    (hl : st.lists[nd.childrenRef]? = some cs) :
    remove_child st n c = (list_remove c cs).map fun cs2 =>
      { st with lists := st.lists.set nd.childrenRef cs2 } := by
  have hwr : childrenWithRef st n = some (nd.childrenRef, cs) := by
    simp [childrenWithRef, hn, hl]
  unfold remove_child
  rw [hwr]

/-- C2 counterexample: removing an absent child is not a no-op — on node 0
of `abState`, whose children are `[1, 2]`, `remove_child` of the absent
node 7 raises `ValueError` instead of returning with the state
unchanged. -/
theorem c2_remove_absent_raises :
    childrenOf abState 0 = some [1, 2] ∧
    (7 : Ref) ∉ [1, 2] ∧
    remove_child abState 0 7 = .error .valueError ∧
    remove_child abState 0 7 ≠ .ok abState :=
  ⟨rfl, by decide, rfl, fun h => Except.noConfusion h⟩

/-- C2 corrected: `remove_child` delegates to Python's `list.remove`: when
the child does not occur in `N.children` (object identity) it raises
`ValueError` — it is not a no-op — and when the child occurs it removes
exactly the first identical occurrence, leaving the rest of the list
unchanged. -/
theorem c2_remove_child_first_match (st : PyState) (n c : Ref)
    (nd : ObjNode) (cs : List Ref) (hn : st.nodes[n]? = some nd)
    (hl : st.lists[nd.childrenRef]? = some cs) :
    (c ∉ cs → remove_child st n c = .error .valueError) ∧
    (∀ l₁ l₂, cs = l₁ ++ c :: l₂ → c ∉ l₁ →
      remove_child st n c =
        .ok { st with lists := st.lists.set nd.childrenRef (l₁ ++ l₂) }) := by
  constructor
  · intro hc
    rw [remove_child_eq st n c nd cs hn hl, list_remove_not_mem c cs hc]
    rfl
  · intro l₁ l₂ hsplit hc
    subst hsplit
    rw [remove_child_eq st n c nd _ hn hl, list_remove_first c l₂ l₁ hc]
    rfl

/-- Witness for the corrected C2 at a concrete heap: on children `[1, 2]`,
removing child 1 succeeds and drops exactly that first occurrence. -/
theorem c2_remove_child_first_match_witness :
    remove_child abState 0 1 =
      .ok { abState with lists := abState.lists.set 0 ([] ++ [2]) } :=
  (c2_remove_child_first_match abState 0 1 ⟨none, none, 0⟩ [1, 2]
    rfl rfl).2 [] [2] rfl (by decide)

/-- C5 counterexample: on node 0 of `abState`, whose children are
`[1, 2]`, `add_child` of node 1 followed by `remove_child` of node 1 does
not restore the prior state: `remove_child` removes the *first* identical
occurrence (the pre-existing one), so the children end as `[2, 1]`, not
`[1, 2]`. -/
theorem c5_add_remove_reorders :
    childrenOf abState 0 = some [1, 2] ∧
    add_child abState 0 1 =
      some { abState with lists := [[1, 2, 1], [], []] } ∧
    remove_child { abState with lists := [[1, 2, 1], [], []] } 0 1 =
      .ok { abState with lists := [[2, 1], [], []] } ∧
    childrenOf { abState with lists := [[2, 1], [], []] } 0 =
      some [2, 1] ∧
    some [2, 1] ≠ (some [1, 2] : Option (List Ref)) :=
  ⟨rfl, rfl, rfl, rfl, by decide⟩

/-- C5 corrected: provided `X` does not already occur in `A.children`
(object identity), `add_child(A, X)` followed by `remove_child(A, X)`
restores the heap — and hence `A.children`, same elements in the same
order — exactly; when `X` already occurs, `remove_child` removes the
first, pre-existing occurrence and the list may end reordered. -/
theorem c5_add_remove_restores (st : PyState) (n c : Ref) (nd : ObjNode)
    (cs : List Ref) (hn : st.nodes[n]? = some nd)
    (hl : st.lists[nd.childrenRef]? = some cs) (hc : c ∉ cs) :
    ∃ st₁, add_child st n c = some st₁ ∧ remove_child st₁ n c = .ok st := by
  refine ⟨{ st with lists := st.lists.set nd.childrenRef (cs ++ [c]) },
    ?_, ?_⟩
  · simp [add_child, hn, hl]
  · have hlen : nd.childrenRef < st.lists.length := by
      by_contra hge
      rw [List.getElem?_eq_none (Nat.le_of_not_lt hge)] at hl
      exact Option.noConfusion hl
    have hn' : ({ st with
        lists := st.lists.set nd.childrenRef (cs ++ [c]) } :
          PyState).nodes[n]? = some nd := hn
    have hl' : (st.lists.set nd.childrenRef (cs ++ [c]))[nd.childrenRef]? =
        some (cs ++ [c]) := by
      simp [List.getElem?_set, hlen]
    rw [remove_child_eq _ n c nd (cs ++ [c]) hn' hl',
      list_remove_first c [] cs hc]
    simp [Except.map, List.set_set,
      set_getElem_self st.lists nd.childrenRef cs hl]

/-- Witness for the corrected C5: node 5 is not among the children
`[1, 2]` of node 0 in `abState`, and adding then removing it restores the
heap exactly. -/
theorem c5_add_remove_restores_witness :
    ∃ st₁, add_child abState 0 5 = some st₁ ∧
      remove_child st₁ 0 5 = .ok abState :=
  c5_add_remove_restores abState 0 5 ⟨none, none, 0⟩ [1, 2] rfl rfl
    (by decide)

/-- C6 counterexample: in `dupState`, node 1 occurs (twice) in its
parent's children `[1, 1]`, so the claim's precondition holds, yet
`get_siblings` filters out *every* identical occurrence: it returns `[]`
of length 0, while `len(parent.children) - 1 = 1`. -/
theorem c6_duplicate_breaks_sibling_count :
    dupState.nodes[1]? = some ⟨some 0, none, 1⟩ ∧
    childrenOf dupState 0 = some [1, 1] ∧
    (1 : Ref) ∈ [1, 1] ∧
    get_siblings dupState 1 = some [] ∧
    ¬ ([] : List Ref).length = [1, 1].length - 1 :=
  ⟨rfl, rfl, by decide, rfl, by decide⟩

/-- C6 corrected: a node never occurs in its own `get_siblings()`; for a
root (no parent) `get_siblings()` is `[]`; and when `N` occurs *exactly
once* in `N.parent.children`, the number of siblings is
`len(N.parent.children) - 1` (for duplicated occurrences every identical
one is filtered out, so the count drops further). -/
theorem c6_siblings (st : PyState) (n : Ref) :
    (∀ sibs, get_siblings st n = some sibs → n ∉ sibs) ∧
    (∀ nd, st.nodes[n]? = some nd → nd.parent = none →
      get_siblings st n = some []) ∧
    (∀ nd p pcs, st.nodes[n]? = some nd → nd.parent = some p →
      childrenOf st p = some pcs → pcs.count n = 1 →
      ∃ sibs, get_siblings st n = some sibs ∧
        sibs.length = pcs.length - 1) := by
  refine ⟨?_, ?_, ?_⟩
  · intro sibs h hmem
    cases hnd : st.nodes[n]? with
    | none => simp [get_siblings, hnd] at h
    | some nd =>
      cases hp : nd.parent with
      | none =>
        simp [get_siblings, hnd, hp] at h
        subst h
        simp at hmem
      | some p =>
        cases hpc : childrenOf st p with
        | none => simp [get_siblings, hnd, hp, hpc] at h
        | some pcs =>
          simp [get_siblings, hnd, hp, hpc] at h
          subst h
          have := List.of_mem_filter hmem
          simp at this
  · intro nd hnd hp
    simp [get_siblings, hnd, hp]
  · intro nd p pcs hnd hp hpc hcount
    refine ⟨pcs.filter (fun c => c ≠ n), ?_, ?_⟩
    · simp [get_siblings, hnd, hp, hpc]
    · rw [length_filter_ne, hcount]

/-- Witness for the corrected C6 on `exState`: node 3 (D) occurs exactly
once among the children `[3, 4]` of its parent (B), giving one sibling;
node 0 (A) is the root and has no siblings. -/
theorem c6_siblings_witness :
    (∃ sibs, get_siblings exState 3 = some sibs ∧
      sibs.length = [3, 4].length - 1) ∧
    get_siblings exState 0 = some [] :=
  ⟨(c6_siblings exState 3).2.2 ⟨some 1, some 3, 3⟩ 1 [3, 4]
      rfl rfl rfl (by decide),
    (c6_siblings exState 0).2.1 ⟨none, some 0, 0⟩ rfl rfl⟩

/-- C7: for every node of the finite acyclic structure, `get_size()`
equals 1 plus the sum of the children's sizes; hence it is a positive
integer, and it counts the node itself plus all of its descendants (one
more than the length of the flat pre-order descendant sequence). -/
theorem c7_size (n : PNode) :
    get_size n = 1 + (n.children.map get_size).sum ∧
    0 < get_size n ∧
    get_size n = 1 + (all_descendants n).length := by
  cases n with
  | mk x cs =>
    refine ⟨?_, ?_, ?_⟩
    · show size_list cs + 1 = 1 + (cs.map get_size).sum
      rw [size_list_eq_map_sum]
      omega
    · show 0 < size_list cs + 1
      omega
    · rw [get_size_eq_desc]
      omega

/-- C8: for every node of the finite acyclic structure,
`get_height() == 0` iff `is_leaf()`; for a non-leaf node the height is 1
plus the maximum of the children's heights: it is attained as
`child height + 1` for some child and strictly exceeds every child's
height. -/
theorem c8_height (n : PNode) :
    (get_height n = 0 ↔ is_leaf n = true) ∧
    (is_leaf n = false →
      ∃ c ∈ n.children, get_height n = get_height c + 1) ∧
    (is_leaf n = false →
      ∀ c ∈ n.children, get_height c < get_height n) := by
  cases n with
  | mk x cs =>
    by_cases hcs : cs.length = 0
    · have hnil : cs = [] := List.length_eq_zero.mp hcs
      subst hnil
      refine ⟨by simp [get_height, is_leaf, PNode.children], ?_, ?_⟩
      · intro h
        simp [is_leaf, PNode.children] at h
      · intro h
        simp [is_leaf, PNode.children] at h
    · have hne : cs ≠ [] := fun h => hcs (by simp [h])
      have hh : get_height (.mk x cs) = max_heights cs + 1 := by
        simp [get_height, hcs]
      refine ⟨?_, ?_, ?_⟩
      · simp [hh, is_leaf, PNode.children, hcs]
      · intro _
        obtain ⟨c, hc, hec⟩ := max_heights_mem cs hne
        exact ⟨c, hc, by rw [hh, hec]⟩
      · intro _ c hc
        rw [hh]
        exact Nat.lt_succ_of_le (le_max_heights cs c hc)

/-- Witness for C8 at the non-leaf node `A` of `A(B(D), C)`. -/
theorem c8_height_witness :
    (get_height exA = 0 ↔ is_leaf exA = true) ∧
    (∃ c ∈ exA.children, get_height exA = get_height c + 1) ∧
    (∀ c ∈ exA.children, get_height c < get_height exA) :=
  ⟨(c8_height exA).1, (c8_height exA).2.1 rfl, (c8_height exA).2.2 rfl⟩

theorem getDepthF_root (st : PyState) (n : Ref) (nd : ObjNode) (f : Nat)
    (hn : st.nodes[n]? = some nd) (hp : nd.parent = none) :
    getDepthF (f + 1) st n = some 0 := by
  simp [getDepthF, hn, hp]

theorem getDepthF_step (st : PyState) (n : Ref) (nd : ObjNode) (p : Ref)
    (f d : Nat) (hn : st.nodes[n]? = some nd) (hp : nd.parent = some p)
    (hd : getDepthF f st p = some d) :
    getDepthF (f + 1) st n = some (d + 1) := by
  simp [getDepthF, hn, hp, hd]

theorem getDepthF_terminates (st : PyState) (n : Ref)
    (h : RootedChain st n) :
    ∃ d k, ∀ f, k ≤ f → getDepthF f st n = some d := by
  induction h with
  | root n nd hn hp =>
    refine ⟨0, 1, fun f hf => ?_⟩
    cases f with
    | zero => omega
    | succ f => exact getDepthF_root st n nd f hn hp
  | step n nd p hn hp _ ih =>
    obtain ⟨d, k, hk⟩ := ih
    refine ⟨d + 1, k + 1, fun f hf => ?_⟩
    cases f with
    | zero => omega
    | succ f =>
      exact getDepthF_step st n nd p f d hn hp (hk f (by omega))

theorem getDepthF_rooted (st : PyState) :
    ∀ f n d, getDepthF f st n = some d → RootedChain st n := by
  intro f
  induction f with
  | zero =>
    intro n d h
    simp [getDepthF] at h
  | succ f ih =>
    intro n d h
    cases hn : st.nodes[n]? with
    | none => simp [getDepthF, hn] at h
    | some nd =>
      cases hp : nd.parent with
      | none => exact RootedChain.root n nd hn hp
      | some p =>
        simp [getDepthF, hn, hp] at h
        obtain ⟨d', hd', _⟩ := h
        exact RootedChain.step n nd p hn hp (ih p d' hd')

/-- C9: when the parent chain from a node is acyclic and reaches a root
through valid references (`RootedChain`), `get_depth` terminates — with
enough fuel it returns a fixed value — and satisfies the recurrence:
0 on a root, and the parent's depth plus 1 on a non-root; conversely,
every run of `get_depth` that produces a value certifies such a chain
(so without the precondition no amount of fuel yields a value), and on
the concrete two-node parent cycle `cycState` the recursion exhausts
every fuel bound — the infinite recursion. -/
theorem c9_depth :
    (∀ st n, RootedChain st n →
      ∃ d k, ∀ f, k ≤ f → getDepthF f st n = some d) ∧
    (∀ st n nd f, st.nodes[n]? = some nd → nd.parent = none →
      getDepthF (f + 1) st n = some 0) ∧
    (∀ st n nd p f d, st.nodes[n]? = some nd → nd.parent = some p →
      getDepthF f st p = some d → getDepthF (f + 1) st n = some (d + 1)) ∧
    (∀ st f n d, getDepthF f st n = some d → RootedChain st n) ∧
    (∀ f, getDepthF f cycState 0 = none) :=
  ⟨getDepthF_terminates,
    fun st n nd f hn hp => getDepthF_root st n nd f hn hp,
    fun st n nd p f d hn hp hd => getDepthF_step st n nd p f d hn hp hd,
    fun st f n d h => getDepthF_rooted st f n d h,
    fun f => (cyc_depth_none f).1⟩

/-- Witness for C9: in `exState` the chain D → B → A is rooted, so
`get_depth` on D terminates; A is a root of depth 0; B has depth
`depth(A) + 1 = 1`; D's successful run at fuel 3 certifies its rooted
chain; and on the parent cycle fuel 5 (like any other) is exhausted. -/
theorem c9_depth_witness :
    (∃ d k, ∀ f, k ≤ f → getDepthF f exState 3 = some d) ∧
    getDepthF 1 exState 0 = some 0 ∧
    getDepthF 2 exState 1 = some 1 ∧
    RootedChain exState 3 ∧
    getDepthF 5 cycState 0 = none := by
  have hchain : RootedChain exState 3 :=
    .step 3 ⟨some 1, some 3, 3⟩ 1 rfl rfl
      (.step 1 ⟨some 0, some 1, 1⟩ 0 rfl rfl
        (.root 0 ⟨none, some 0, 0⟩ rfl rfl))
  exact ⟨c9_depth.1 exState 3 hchain,
    c9_depth.2.1 exState 0 ⟨none, some 0, 0⟩ 0 rfl rfl,
    c9_depth.2.2.1 exState 1 ⟨some 0, some 1, 1⟩ 0 1 0 rfl rfl rfl,
    c9_depth.2.2.2.1 exState 3 3 2 rfl,
    c9_depth.2.2.2.2 5⟩

/-- Witness for C3 at a concrete heap and fuel. -/
theorem c3_empty_tree_facade_fails_witness :
    tree_is_empty { root := none } = true ∧
    treeGetLeavesF 5 exState { root := none } = none ∧
    treeGetSizeF 5 exState { root := none } = none ∧
    treeGetHeightF 5 exState { root := none } = none ∧
    treeGetDepthF 5 exState { root := none } = none :=
  c3_empty_tree_facade_fails exState 5

/-- Witness for C7 at the concrete node `A` of `A(B(D), C)`. -/
theorem c7_size_witness :
    get_size exA = 1 + (exA.children.map get_size).sum ∧
    0 < get_size exA ∧
    get_size exA = 1 + (all_descendants exA).length :=
  c7_size exA
